import Mathlib

/-!
# Verification of the git-commit-mining history-analysis engine

A shallow embedding, in Lean 4, of the core components of the
d-stahl-ericsson/git-commit-mining repository (gitlyze.py, gitanalyses.py,
sizeandcomplexity.py, levenshtein.py, find-complex-functions.py,
AnnotatedCommit.py), together with theorems settling the frozen claims
about the natural-language specification.

Modelling conventions:
* External collaborators (GitPython, lizard, editdistance, the filesystem)
  are represented by the data they hand to the core: a commit record carries
  its author, committed timestamp, parent count, the file-level diffs
  against its first parent, its own full tree, and the full tree of its
  first parent, all as plain data. A blob carries the function list that the
  external complexity parser (lizard) reports for its content, and its
  decoded text content. A diff carries the unified-diff text that the
  external unified-diff provider produces for it.
* Git trees are modelled by their recursive blob enumeration (a list of
  blobs), matching the specification's description of a tree as
  "recursively enumerable into path-to-blob entries".
* Python dictionaries are modelled as association lists in insertion order,
  with an insert operation that replaces an existing key in place and
  appends a fresh key at the end, exactly as Python dict assignment does.
* Python integers are Int (timestamps, deltas) or Nat (counts, sizes).
* Text is modelled as Lean String; the Python slice line[1:] is the tail of
  the character list; str.startswith(p) is character-list prefix testing.
-/

namespace GitCommitMining

/-! ## Basic data model -/

/-- The fully qualified path of a file inside the repository tree. -/
abbrev Path := String

/-- The measurement the external complexity parser (lizard) reports for one
function of a source file: its name, its number of lines of code, and its
cyclomatic complexity. -/
structure FunctionMeasure where
  name : String
  nloc : Nat
  cyclomatic_complexity : Nat
deriving DecidableEq

/-- One file (blob) at one revision, as the external provider exposes it to
the core: its path, its file name, its decoded text content, and the
function list measured from its content by the external complexity parser. -/
structure Blob where
  path : Path
  name : String
  content : String
  functions : List FunctionMeasure
deriving DecidableEq

/-- Modelled from the spec: BlobStats.py is not among the provided source
files. Section 3 of the specification describes Blob Stats as the aggregate
size/complexity of one file: lines-of-code, cyclomatic complexity, function
count, each starting at zero and filled in by a full re-measurement of the
file. -/
structure BlobStats where
  loc : Nat
  cyclomaticComplexity : Nat
  functions : Nat
deriving DecidableEq

/-- One file-level diff between a commit and its first parent, as GitPython
exposes it: the change type string (A, M, D, or Rxxx for renames), the old
and new paths, the old and new blobs (absent when there is no old or new
version), and the unified-diff text between the two versions, already split
into lines, as the external unified-diff provider returns it. -/
structure Diff where
  change_type : String
  a_path : Path
  b_path : Path
  a_blob : Option Blob
  b_blob : Option Blob
  diffLines : List String
deriving DecidableEq

/-- One raw repository commit, as the version-control provider exposes it:
identity, author name, committed timestamp, number of parents, the
file-level diffs against its first parent, its own full tree, and the full
tree of its first parent (both trees as their recursive blob enumeration). -/
structure RawCommit where
  id : Nat
  author : String
  committed_date : Int
  parentsCount : Nat
  diffs : List Diff
  tree : List Blob
  parentTree : List Blob
deriving DecidableEq

/-! ## String helpers (Python semantics) -/

/-- Python str.startswith(pre): the character sequence of pre is a prefix of
the character sequence of s. -/
def strStartsWith (s pre : String) : Bool :=
  pre.data.isPrefixOf s.data

/-- Python line[1:]: drop the first character. -/
def strTail (s : String) : String :=
  String.mk (s.data.drop 1)

/-! ## Python dictionaries as association lists -/

/-- Dictionary lookup: first entry with the given key (keys are unique in
any list built by dictInsert, so first = only). -/
def dictLookup {κ β : Type} [DecidableEq κ] : List (κ × β) → κ → Option β
  | [], _ => none
  | e :: rest, p => if e.1 = p then some e.2 else dictLookup rest p

/-- Python dict assignment d[p] = v: replace the entry of an existing key in
place, append a fresh key at the end. -/
def dictInsert {κ β : Type} [DecidableEq κ] (l : List (κ × β)) (p : κ) (v : β) :
    List (κ × β) :=
  if (dictLookup l p).isSome then
    l.map (fun e => if e.1 = p then (p, v) else e)
  else
    l ++ [(p, v)]

/-- Python d.pop(p, None): remove the entry for p when present, do nothing
otherwise (never an error). -/
def dictErase {κ β : Type} [DecidableEq κ] (l : List (κ × β)) (p : κ) :
    List (κ × β) :=
  l.filter (fun e => e.1 ≠ p)

/-! ## The external editdistance collaborator

The editdistance library computes the plain Levenshtein distance between two
strings (unit cost for insertion, deletion and substitution). It is embedded
as the standard dynamic-programming row recurrence, which is structurally
recursive and therefore evaluable by the kernel. -/

/-- One inner step of the Levenshtein DP: given the remaining target
characters paired against the remaining cells of the previous row, the
diagonal cell and the cell just computed to the left, produce the rest of
the new row. -/
def levRowAux (x : Char) : List Char → List Nat → Nat → Nat → List Nat
  | [], _, _, _ => []
  | _ :: _, [], _, _ => []
  | y :: ys, up :: oldRest, diag, left =>
    let cell := min (diag + (if x = y then 0 else 1)) (min (up + 1) (left + 1))
    cell :: levRowAux x ys oldRest up cell

/-- One outer step of the Levenshtein DP: from the row of distances of a
source prefix against all prefixes of the target, compute the row for the
source prefix extended by the character x. -/
def levRow (x : Char) (ys : List Char) (old : List Nat) : List Nat :=
  match old with
  | [] => []
  | d :: rest => (d + 1) :: levRowAux x ys rest d (d + 1)

/-- Levenshtein distance between two character lists (the editdistance.eval
collaborator): fold the DP row over the source, starting from the row
0, 1, ..., m of distances from the empty source. -/
def editDistance (a b : List Char) : Nat :=
  ((a.foldl (fun row x => levRow x b row) (List.range (b.length + 1))).getLast?).getD 0

/-- editdistance.eval on Python strings. -/
def editDistanceStr (a b : String) : Nat :=
  editDistance a.data b.data

/-! ## levenshtein.py -/

/-- The loop of blob_delta (levenshtein.py lines 52-69), processing the
unified-diff lines one by one while carrying the accumulated removed-line
text contentA, the accumulated added-line text contentB, the flag
previous_line_was_plus, and the accumulated distance. Lines starting with
three dashes or three pluses are headers and are skipped; a line starting
with a dash appends its tail to contentA before the flush test runs; a line
starting with a plus appends its tail to contentB and sets the flag; any
other line flushes the accumulated pair through editdistance.eval when the
flag is set. The final pair is always flushed at the end of the diff. -/
def blobDeltaGo : List String → String → String → Bool → Nat → Nat
  | [], contentA, contentB, _, acc => acc + editDistanceStr contentA contentB
  | line :: rest, contentA, contentB, plus, acc =>
    if strStartsWith line "---" || strStartsWith line "+++" then
      blobDeltaGo rest contentA contentB plus acc
    else
      let contentA' := if strStartsWith line "-" then contentA ++ strTail line else contentA
      if strStartsWith line "+" then
        blobDeltaGo rest contentA' (contentB ++ strTail line) true acc
      else if plus then
        blobDeltaGo rest "" "" false (acc + editDistanceStr contentA' contentB)
      else
        blobDeltaGo rest contentA' contentB plus acc

/-- blob_delta (levenshtein.py lines 46-70) on the line list of the unified
diff produced by the external unified-diff provider. -/
def blob_delta (lines : List String) : Nat :=
  blobDeltaGo lines "" "" false 0

/-- The hunk decomposition that blob_delta actually performs: the same state
machine as blobDeltaGo, but emitting the flushed (removed-text, added-text)
pairs instead of summing their edit distances. Note that a removed line
which immediately follows a run of added lines contributes its tail to the
hunk being flushed (contentA is extended before the flush runs). -/
def hunksGo : List String → String → String → Bool → List (String × String)
  | [], contentA, contentB, _ => [(contentA, contentB)]
  | line :: rest, contentA, contentB, plus =>
    if strStartsWith line "---" || strStartsWith line "+++" then
      hunksGo rest contentA contentB plus
    else
      let contentA' := if strStartsWith line "-" then contentA ++ strTail line else contentA
      if strStartsWith line "+" then
        hunksGo rest contentA' (contentB ++ strTail line) true
      else if plus then
        (contentA', contentB) :: hunksGo rest "" "" false
      else
        hunksGo rest contentA' contentB plus

/-- The hunks of a unified diff as blob_delta groups them. -/
def hunks (lines : List String) : List (String × String) :=
  hunksGo lines "" "" false

/-- Modelled from the spec's words for claim C2 (refinement comparison, not
from the source): group consecutive removed lines and consecutive added
lines into aligned hunks, a hunk ending exactly when a run of added lines is
followed by a non-added line or the diff ends, the boundary falling before
the non-added line, so a removed line at the boundary starts the next hunk's
removed content. -/
def hunksSpecGo : List String → String → String → Bool → List (String × String)
  | [], contentA, contentB, _ => [(contentA, contentB)]
  | line :: rest, contentA, contentB, plus =>
    if strStartsWith line "---" || strStartsWith line "+++" then
      hunksSpecGo rest contentA contentB plus
    else if strStartsWith line "+" then
      hunksSpecGo rest contentA (contentB ++ strTail line) true
    else if plus then
      (contentA, contentB) ::
        hunksSpecGo rest (if strStartsWith line "-" then strTail line else "") "" false
    else if strStartsWith line "-" then
      hunksSpecGo rest (contentA ++ strTail line) contentB plus
    else
      hunksSpecGo rest contentA contentB plus

/-- Modelled from the spec's words for claim C2: the per-file contribution
as the sum over the spec's hunks of the Levenshtein distance between the
concatenated removed text and the concatenated added text. -/
def blob_delta_spec (lines : List String) : Nat :=
  ((hunksSpecGo lines "" "" false).map (fun h => editDistanceStr h.1 h.2)).sum

/-- blob_size (levenshtein.py lines 42-44): the character length of the
decoded blob content; zero when the blob is absent (the code never reaches
that case for the change types it pairs with blob_size). -/
def blob_size (b : Option Blob) : Nat :=
  match b with
  | some blob => blob.content.length
  | none => 0

/-- commitDistance (levenshtein.py lines 23-40): fold over the file-level
diffs of the commit against its first parent; an added file contributes its
full content length, a deleted file its prior content length, a modified or
renamed file its blob_delta over the unified-diff lines; only files whose
extension is supported contribute. -/
def commitDistance (ext : Path → Bool) (diffs : List Diff) : Nat :=
  diffs.foldl
    (fun acc diff =>
      let acc := if diff.change_type = "A" ∧ ext diff.b_path then
          acc + blob_size diff.b_blob else acc
      let acc := if (diff.change_type = "M" ∨ strStartsWith diff.change_type "R")
          ∧ ext diff.b_path then
          acc + blob_delta diff.diffLines else acc
      if diff.change_type = "D" ∧ ext diff.a_path then
          acc + blob_size diff.a_blob else acc)
    0

/-! ## sizeandcomplexity.py

The supported-extension test lives in extensions.py, which the
specification treats as external configuration ("supported file extensions
are configured externally"); it is therefore a parameter ext of every
transcription below. -/

/-- A Tree Snapshot: mapping from file path to Blob Stats, as an insertion
ordered dictionary. -/
abbrev Tree := List (Path × BlobStats)

/-- A Tree Delta: mapping from file path to either new Blob Stats
(added/modified) or the deletion marker None. -/
abbrev TreeDelta := List (Path × Option BlobStats)

/-- blob_stats (sizeandcomplexity.py lines 56-65): sum the external parser's
per-function measurements of the blob content into aggregate stats. -/
def blob_stats (b : Blob) : BlobStats :=
  b.functions.foldl
    (fun bs f =>
      { loc := bs.loc + f.nloc
        cyclomaticComplexity := bs.cyclomaticComplexity + f.cyclomatic_complexity
        functions := bs.functions + 1 })
    { loc := 0, cyclomaticComplexity := 0, functions := 0 }

/-- blob_stats applied to an optional blob; for the change types that reach
it (added, modified, renamed) git always supplies the new blob, so the
absent case is unreachable for well-formed provider data. -/
def blob_stats_opt (b : Option Blob) : BlobStats :=
  match b with
  | some blob => blob_stats blob
  | none => { loc := 0, cyclomaticComplexity := 0, functions := 0 }

/-- analyze_tree (sizeandcomplexity.py lines 44-54) on the recursive blob
enumeration of a git tree: the dictionary from each supported path to the
measured stats of its blob. -/
def analyze_tree (ext : Path → Bool) (tree : List Blob) : Tree :=
  tree.foldl (fun m b => if ext b.path then dictInsert m b.path (blob_stats b) else m) []

/-- all_blobs_in_tree (sizeandcomplexity.py lines 24-34) on the recursive
blob enumeration of a git tree: the dictionary from each supported path to
its blob. -/
def all_blobs_in_tree (ext : Path → Bool) (tree : List Blob) : List (Path × Blob) :=
  tree.foldl (fun m b => if ext b.path then dictInsert m b.path b else m) []

/-- all_blobs_modified_by_commit (sizeandcomplexity.py lines 36-42): the
dictionary from each supported new path of the commit's diffs to its new
blob; diffs without a new blob (deletions) are skipped. -/
def all_blobs_modified_by_commit (ext : Path → Bool) (diffs : List Diff) :
    List (Path × Blob) :=
  diffs.foldl
    (fun m diff =>
      match diff.b_blob with
      | some b => if ext b.path then dictInsert m b.path b else m
      | none => m)
    []

/-- One diff's contribution to tree_delta (sizeandcomplexity.py lines
77-89): additions and modifications record the measured new blob under the
new path, deletions record the deletion marker under the old path, renames
record the deletion marker under the old path and the measured new blob
under the new path; each entry only when the respective extension is
supported. -/
def tdStep (ext : Path → Bool) (td : TreeDelta) (diff : Diff) : TreeDelta :=
  let td := if (diff.change_type = "A" ∨ diff.change_type = "M") ∧ ext diff.b_path then
      dictInsert td diff.b_path (some (blob_stats_opt diff.b_blob)) else td
  let td := if diff.change_type = "D" ∧ ext diff.a_path then
      dictInsert td diff.a_path none else td
  if strStartsWith diff.change_type "R" then
    let td := if ext diff.a_path then dictInsert td diff.a_path none else td
    if ext diff.b_path then dictInsert td diff.b_path (some (blob_stats_opt diff.b_blob))
    else td
  else td

/-- tree_delta (sizeandcomplexity.py lines 67-91): fold tdStep over the
commit's diffs against its first parent, starting from the empty
dictionary. -/
def tree_delta (ext : Path → Bool) (diffs : List Diff) : TreeDelta :=
  diffs.foldl (tdStep ext) []

/-- The loop of aggregate_delta (sizeandcomplexity.py lines 98-107) as an
explicit state-passing function: each iteration reads the baseline snapshot
(subtracting the snapshot stats of the path when present, adding the new
stats when the entry is not a deletion marker) and threads the snapshot on
unchanged; the loop returns the accumulated deltas together with the
snapshot it was given. -/
def aggregate_delta_loop (previous_tree : Tree) (acc : Int × Int × Int) :
    TreeDelta → (Int × Int × Int) × Tree
  | [] => (acc, previous_tree)
  | (path, blobstats) :: rest =>
    let acc := match dictLookup previous_tree path with
      | some prev =>
        (acc.1 - (prev.loc : Int), acc.2.1 - (prev.cyclomaticComplexity : Int),
         acc.2.2 - (prev.functions : Int))
      | none => acc
    let acc := match blobstats with
      | some bs =>
        (acc.1 + (bs.loc : Int), acc.2.1 + (bs.cyclomaticComplexity : Int),
         acc.2.2 + (bs.functions : Int))
      | none => acc
    aggregate_delta_loop previous_tree acc rest

/-- aggregate_delta (sizeandcomplexity.py lines 93-109): the delta totals
(delta LOC, delta cyclomatic complexity, delta function count) of a tree
delta against the baseline snapshot. -/
def aggregate_delta (previous_tree : Tree) (delta_tree : TreeDelta) : Int × Int × Int :=
  (aggregate_delta_loop previous_tree (0, 0, 0) delta_tree).1

/-- aggregate_stats_from_blobs (sizeandcomplexity.py lines 111-121): total
LOC, cyclomatic complexity and function count of a snapshot. -/
def aggregate_stats_from_blobs (blobs : Tree) : Int × Int × Int :=
  blobs.foldl
    (fun acc e =>
      (acc.1 + (e.2.loc : Int), acc.2.1 + (e.2.cyclomaticComplexity : Int),
       acc.2.2 + (e.2.functions : Int)))
    (0, 0, 0)

/-- apply_delta_to_tree (sizeandcomplexity.py lines 123-130): apply a tree
delta to the snapshot, removing the entry of every path carrying the
deletion marker (a no-op when the path is absent) and replacing or adding
the entry of every path carrying new stats. -/
def apply_delta_to_tree (previous_tree : Tree) (td : TreeDelta) : Tree :=
  td.foldl
    (fun t e =>
      match e.2 with
      | none => dictErase t e.1
      | some bs => dictInsert t e.1 bs)
    previous_tree

/-- calculate_function_complexities (sizeandcomplexity.py lines 132-141):
the dictionary from path + "." + function name to cyclomatic complexity,
over all functions of all blobs of the given path-to-blob dictionary. -/
def calculate_function_complexities (blobs : List (Path × Blob)) : List (String × Nat) :=
  blobs.foldl
    (fun m e =>
      e.2.functions.foldl
        (fun m f => dictInsert m (e.1 ++ "." ++ f.name) f.cyclomatic_complexity)
        m)
    []

/-! ## gitlyze.py: the Commit Chain Builder -/

/-- Modelled from the spec: filters.py is not among the provided source
files. Section 4.1 describes author/commit exclusion predicates applied to
each commit; a commit matches the filter when its author is one of the
filtered authors or its identity is one of the filtered commits. -/
def filter_match (c : RawCommit) (filtered_authors : List String)
    (filtered_commits : List Nat) : Bool :=
  decide (c.author ∈ filtered_authors) || decide (c.id ∈ filtered_commits)

/-- The run parameters of the analysis: start time, end time, activity
window (active committer interval, seconds), and the filter lists. -/
structure Params where
  startTime : Int
  endTime : Int
  interval : Int
  filtered_authors : List String
  filtered_commits : List Nat
deriving DecidableEq

/-- The inclusion condition of createDataSet (gitlyze.py line 76): committed
time strictly after the start time and strictly before the end time, parent
count exactly one, and not matched by the author/commit filters. -/
def analyzable (p : Params) (c : RawCommit) : Bool :=
  decide (p.startTime < c.committed_date) && decide (c.committed_date < p.endTime) &&
    (c.parentsCount == 1) &&
    !(filter_match c p.filtered_authors p.filtered_commits)

/-- The chain of createDataSet: the raw log as the provider returns it
(newest first, as git iter_commits does), reversed to oldest first; the
previous/next links of the AnnotatedCommit records follow this order, so
the record at chain position i has the record at position i-1 as its
previous link. -/
def chainOf (rawCommits : List RawCommit) : List RawCommit :=
  rawCommits.reverse

/-- The data-collecting loop of createDataSet (gitlyze.py lines 66-77):
walk the chain in order, appending each analyzable commit to the data
list. -/
def createDataSetLoop (p : Params) (chain : List RawCommit) : List RawCommit :=
  chain.foldl (fun data c => if analyzable p c then data ++ [c] else data) []

/-- createDataSet (gitlyze.py lines 59-83): on a retrieval failure,
propagate it as a user-facing error; otherwise build the chain and collect
the analyzable commits; report a user-facing error when no commit
qualifies. -/
def createDataSet (raw : Except String (List RawCommit)) (p : Params) :
    Except String (List RawCommit) :=
  match raw with
  | Except.error e => Except.error ("Git command failed: " ++ e)
  | Except.ok rawCommits =>
    let data := createDataSetLoop p (chainOf rawCommits)
    if data.isEmpty then
      Except.error "No commits found on the branch in the interval."
    else
      Except.ok data

/-- The analyzable commits of a chain (the data set, oldest first). -/
def dataOf (p : Params) (chain : List RawCommit) : List RawCommit :=
  chain.filter (analyzable p)

/-- The chain positions of the analyzable commits, in order. -/
def dataIdx (p : Params) (chain : List RawCommit) : List Nat :=
  (chain.enum.filter (fun ic => analyzable p ic.2)).map (fun ic => ic.1)

/-! ## gitanalyses.py: the Windowed Activity Analyzer

The while loops walking the previous links from the record at chain
position i traverse the chain records at positions i-1, i-2, ..., that is,
the reversed prefix of the chain before i (spec section 9 recommends
exactly this arena-of-indices rendering of the linked list). -/

/-- The records seen by a backward walk starting from chain position i:
the chain prefix before i, nearest first. -/
def prevsAt (chain : List RawCommit) (i : Nat) : List RawCommit :=
  (chain.take i).reverse

/-- The while loop of analyzeNumberOfActiveDevelopers (gitanalyses.py lines
30-32): walk backward while the committed time is strictly after the
cutoff, collecting the distinct author names. -/
def activeAuthorsL (prevs : List RawCommit) (cutOff : Int) : Finset String :=
  match prevs with
  | [] => ∅
  | prev :: rest =>
    if cutOff < prev.committed_date then insert prev.author (activeAuthorsL rest cutOff)
    else ∅

/-- The while loop of analyzeNumberOfCommitsInSameDay (gitanalyses.py lines
59-61): walk backward while the committed time is strictly after the
cutoff, counting the records traversed. -/
def commitsInWindow (prevs : List RawCommit) (cutOff : Int) : Nat :=
  match prevs with
  | [] => 0
  | prev :: rest =>
    if cutOff < prev.committed_date then commitsInWindow rest cutOff + 1 else 0

/-- The while loop of analyzeDaysSincePreviousCommit (gitanalyses.py lines
43-47): walk backward while the committed time is strictly after the
cutoff; at the first record by the same author, report the elapsed days
(truncating division by 86400, as Python int() truncates toward zero);
report nothing when the walk ends without a match. -/
def daysSincePrev (prevs : List RawCommit) (author : String) (t cutOff : Int) :
    Option Int :=
  match prevs with
  | [] => none
  | prev :: rest =>
    if cutOff < prev.committed_date then
      if prev.author = author then some ((t - prev.committed_date).tdiv 86400)
      else daysSincePrev rest author t cutOff
    else none

/-- The per-commit annotation written by analyzeNumberOfActiveDevelopers
(gitanalyses.py lines 24-35): defined for exactly the analyzable commits;
the walk itself runs over the full unfiltered chain. -/
def annActiveDevelopers (p : Params) (chain : List RawCommit) (i : Nat) : Option Nat :=
  match chain[i]? with
  | some c =>
    if analyzable p c then
      some (activeAuthorsL (prevsAt chain i) (c.committed_date - p.interval)).card
    else none
  | none => none

/-- The per-commit annotation written by analyzeNumberOfCommitsInSameDay
(gitanalyses.py lines 51-63): a fixed one-day cutoff of 86400 seconds,
independent of the configurable activity window. -/
def annCommitsInLast24h (p : Params) (chain : List RawCommit) (i : Nat) : Option Nat :=
  match chain[i]? with
  | some c =>
    if analyzable p c then
      some (commitsInWindow (prevsAt chain i) (c.committed_date - 86400))
    else none
  | none => none

/-- The per-commit annotation written by analyzeLevenshteinDistance
(gitanalyses.py lines 65-78): skipped (left unset) when the record's
previous link is None, that is, at chain position 0; otherwise the
commitDistance of the commit's diffs. -/
def annLevenshtein (ext : Path → Bool) (p : Params) (chain : List RawCommit)
    (i : Nat) : Option Nat :=
  match chain[i]? with
  | some c =>
    if analyzable p c then
      if i = 0 then none else some (commitDistance ext c.diffs)
    else none
  | none => none

/-- The zero-distance row exclusion of tabulate (gitlyze.py line 92): a data
row is kept unless its Levenshtein annotation compares equal to 0 (Python's
None == 0 is False, so an unset annotation is kept). The kept rows, as
chain positions. -/
def tabulateKept (ext : Path → Bool) (p : Params) (chain : List RawCommit) : List Nat :=
  (dataIdx p chain).filter (fun i => annLevenshtein ext p chain i ≠ some 0)

/-! ## gitanalyses.py: the Incremental Size/Complexity Aggregator -/

/-- The six per-commit fields written by analyzeSizeAndComplexity: absolute
and delta LOC, absolute and delta cyclomatic complexity, absolute and delta
function count. -/
structure SizeFields where
  loc : Int
  dLoc : Int
  cc : Int
  dCC : Int
  fns : Int
  dFns : Int
deriving DecidableEq

/-- The per-commit loop of analyzeSizeAndComplexity (gitanalyses.py lines
92-108), threading the baseline snapshot and the previous commit's absolute
totals: each commit's tree delta is aggregated against the snapshot, its
absolute fields are the previous absolutes plus the deltas, the recursion
continues with this commit's absolutes and the snapshot with the delta
applied. -/
def sizeFieldsList (ext : Path → Bool) :
    Tree → Int × Int × Int → List RawCommit → List SizeFields
  | _, _, [] => []
  | t, base, c :: rest =>
    let td := tree_delta ext c.diffs
    let d := aggregate_delta t td
    let f : SizeFields :=
      { loc := base.1 + d.1, dLoc := d.1
        cc := base.2.1 + d.2.1, dCC := d.2.1
        fns := base.2.2 + d.2.2, dFns := d.2.2 }
    f :: sizeFieldsList ext (apply_delta_to_tree t td) (f.loc, f.cc, f.fns) rest

/-- analyzeSizeAndComplexity (gitanalyses.py lines 80-111): nothing on an
empty data set; otherwise seed the baseline snapshot from the full tree of
the first analyzable commit's first parent, seed the previous absolutes as
that snapshot's totals, and run the per-commit loop over the data set. -/
def sizeFieldsOfData (ext : Path → Bool) (data : List RawCommit) : List SizeFields :=
  match data with
  | [] => []
  | c0 :: _ =>
    let previous_tree := analyze_tree ext c0.parentTree
    sizeFieldsList ext previous_tree (aggregate_stats_from_blobs previous_tree) data

/-- The size/complexity annotation of the chain record at position i: the
k-th entry of the analyzer's output when i is the k-th analyzable position,
unset otherwise. -/
def annSize (ext : Path → Bool) (p : Params) (chain : List RawCommit) (i : Nat) :
    Option SizeFields :=
  dictLookup ((dataIdx p chain).zip (sizeFieldsOfData ext (dataOf p chain))) i

/-! ## gitanalyses.py: the Complex-Function Contribution Tracker -/

/-- The two per-commit fields written by the Contribution Tracker; both
start unset (None). -/
structure ContribFields where
  inc : Option Nat
  dec : Option Nat
deriving DecidableEq

/-- The Python accumulation idiom of gitanalyses.py lines 149-152 and
156-159: when the field holds a truthy value (set and nonzero), add the
amount to it; otherwise (unset, or set to zero) store the amount. -/
def bumpContrib (cur : Option Nat) (amount : Nat) : Option Nat :=
  match cur with
  | some v => if v ≠ 0 then some (v + amount) else some amount
  | none => some amount

/-- update_complex_function_contribution_of_commit (gitanalyses.py lines
140-159): read the previous complexity from the map, defaulting to 0 when
absent; when the previous value exceeds 11 and strictly exceeds the new
value, accumulate the difference into the commit's decrease field; when the
new value exceeds 11 and strictly exceeds the previous value, accumulate
the difference into the increase field. -/
def update_complex_function_contribution_of_commit
    (previous_function_complexities : List (String × Nat)) (function : String)
    (complexity : Nat) (commit : ContribFields) : ContribFields :=
  let previous_complexity :=
    (dictLookup previous_function_complexities function).getD 0
  let commit :=
    if 11 < previous_complexity ∧ complexity < previous_complexity then
      { commit with dec := bumpContrib commit.dec (previous_complexity - complexity) }
    else commit
  if 11 < complexity ∧ previous_complexity < complexity then
    { commit with inc := bumpContrib commit.inc (complexity - previous_complexity) }
  else commit

/-- One iteration of the per-function loop of
analyzeComplexFunctionsContributions (gitanalyses.py lines 129-133): when
the re-measured function belongs to the caller-supplied complex-functions
set, fold its new complexity into the commit's contribution fields; in all
cases update the Function Complexity Map entry to the new value. -/
def contribStep (complex_functions : List String)
    (st : List (String × Nat) × ContribFields) (item : String × Nat) :
    List (String × Nat) × ContribFields :=
  let fields :=
    if item.1 ∈ complex_functions then
      update_complex_function_contribution_of_commit st.1 item.1 item.2 st.2
    else st.2
  (dictInsert st.1 item.1 item.2, fields)

/-- The whole per-commit loop of analyzeComplexFunctionsContributions: fold
contribStep over the re-measured functions of the files the commit
touched. -/
def contribCommit (ext : Path → Bool) (complex_functions : List String)
    (m : List (String × Nat)) (c : RawCommit) (fields : ContribFields) :
    List (String × Nat) × ContribFields :=
  (calculate_function_complexities (all_blobs_modified_by_commit ext c.diffs)).foldl
    (contribStep complex_functions) (m, fields)

/-! ## find-complex-functions.py: the Complex-Function Finder -/

/-- The blobs scanned for one commit (find-complex-functions.py lines
121-127): the full tree for the very first analyzable commit, only the new
blobs of the commit's diffs afterwards; in both cases restricted to
supported extensions. -/
def blobsToScan (ext : Path → Bool) (first : Bool) (c : RawCommit) : List Blob :=
  if first then c.tree.filter (fun b => ext b.path)
  else
    c.diffs.foldl
      (fun bs d =>
        match d.b_blob with
        | some b => if ext b.path then bs ++ [b] else bs
        | none => bs)
      []

/-- The observations of the Finder's walk, in scan order: for each data
commit (the first flagged as first), for each scanned blob not in the
filtered-files list, for each measured function, the pair of its fully
qualified name (path + "." + name) and its cyclomatic complexity. -/
def scanObservations (ext : Path → Bool) (filtered_files : List String)
    (data : List RawCommit) : List (String × Nat) :=
  (data.enum.map
    (fun ic =>
      ((blobsToScan ext (ic.1 == 0) ic.2).map
        (fun b =>
          if b.path ∈ filtered_files then []
          else b.functions.map
            (fun f => (b.path ++ "." ++ f.name, f.cyclomatic_complexity)))).flatten)).flatten

/-- The recorded value for one observation: the maximum of the observed
complexity and the already-recorded value, or the observation itself when
nothing is recorded yet (find-complex-functions.py lines 139-142). -/
def maxOpt (cc : Nat) (o : Option Nat) : Nat :=
  match o with
  | some v => max cc v
  | none => cc

/-- One map update of find_complex_functions (lines 136-142): when the
observed complexity exceeds 15, record under the fully qualified name the
maximum of the observation and the value already recorded, or the
observation itself for a fresh name; otherwise leave the map unchanged. -/
def recordComplex (m : String → Option Nat) (name : String) (cc : Nat) :
    String → Option Nat :=
  if 15 < cc then
    fun n => if n = name then some (maxOpt cc (m name)) else m n
  else m

/-- find_complex_functions (find-complex-functions.py lines 112-146): fold
the map updates over the observations of the walk, starting from the empty
map. -/
def find_complex_functions (ext : Path → Bool) (filtered_files : List String)
    (data : List RawCommit) : String → Option Nat :=
  (scanObservations ext filtered_files data).foldl
    (fun m oc => recordComplex m oc.1 oc.2) (fun _ => none)

/-- All complexities observed for one fully qualified name during the walk,
in scan order. -/
def obsOf (obs : List (String × Nat)) (name : String) : List Nat :=
  (obs.filter (fun oc => oc.1 = name)).map (fun oc => oc.2)

/-- The maximum of a list of observed complexities (zero for no
observations; every recorded observation exceeds 15, so the default never
masks an observation). -/
def listMax (l : List Nat) : Nat :=
  l.foldl max 0

/-- The map-update step of find_complex_functions restricted to a single
name: fold the over-15 recording rule over a list of observed complexities,
starting from an optional already-recorded value. Used to characterize the
Finder's map. -/
def foldRecord (v0 : Option Nat) (ccs : List Nat) : Option Nat :=
  ccs.foldl (fun acc cc => if 15 < cc then some (maxOpt cc acc) else acc) v0

/-- A diff that touches no supported path: whatever its change type, every
path it would record in the tree delta fails the extension filter, so
tdStep ignores it. -/
def untrackedDiff (ext : Path → Bool) (d : Diff) : Prop :=
  ((d.change_type = "A" ∨ d.change_type = "M") → ext d.b_path = false) ∧
    (d.change_type = "D" → ext d.a_path = false) ∧
    (strStartsWith d.change_type "R" = true → ext d.a_path = false ∧ ext d.b_path = false)

/-- A rename diff as GitPython reports it: change type Rxxx, old and new
paths, the new blob present. -/
def renameDiff (aP bP : Path) (b : Blob) (lines : List String) : Diff :=
  { change_type := "R100", a_path := aP, b_path := bP, a_blob := none,
    b_blob := some b, diffLines := lines }

/-! ## Concrete instances for counterexamples and witnesses -/

/-- An extension filter accepting every path. -/
def extAll : Path → Bool := fun _ => true

/-- A concrete blob for witnesses. -/
def wBlob : Blob :=
  { path := "b.c", name := "b.c", content := "x",
    functions := [{ name := "f", nloc := 3, cyclomatic_complexity := 2 }] }

/-- A two-commit chain for the claim C1 counterexample: the older commit is
a merge (two parents, hence not analyzable), the newer one is analyzable;
the newer commit changes nothing (empty diff) and its parent tree is
empty. -/
def cexChain : List RawCommit :=
  [{ id := 0, author := "alice", committed_date := 10, parentsCount := 2,
     diffs := [], tree := [], parentTree := [] },
   { id := 1, author := "bob", committed_date := 20, parentsCount := 1,
     diffs := [], tree := [], parentTree := [] }]

/-- Run parameters for the claim C1 counterexample: the window covers both
commits and nothing is filtered. -/
def cexParams : Params :=
  { startTime := 0, endTime := 100, interval := 30,
    filtered_authors := [], filtered_commits := [] }

/-- A single analyzable commit sitting at the very start of the chain (its
previous link is None), for the claim C9 witness. -/
def wC9c : RawCommit :=
  { id := 5, author := "a", committed_date := 10, parentsCount := 1,
    diffs := [], tree := [], parentTree := [] }

/-- A commit by author x at time 10, for the claim C4 witness. -/
def wC4a : RawCommit :=
  { id := 0, author := "x", committed_date := 10, parentsCount := 1,
    diffs := [], tree := [], parentTree := [] }

/-- A second commit by author x at time 20, for the claim C4 witness. -/
def wC4b : RawCommit :=
  { id := 1, author := "x", committed_date := 20, parentsCount := 1,
    diffs := [], tree := [], parentTree := [] }

/-- The two-commit chain of the claim C4 witness. -/
def wC4chain : List RawCommit := [wC4a, wC4b]

/-- Run parameters filtering out author x, for the claim C4 witness. -/
def wC4params : Params :=
  { startTime := 0, endTime := 100, interval := 30,
    filtered_authors := ["x"], filtered_commits := [] }

/-! # Theorems -/

/-! ## Dictionary lemmas -/

theorem dictLookup_append {κ β : Type} [DecidableEq κ] (l₁ l₂ : List (κ × β)) (p : κ) :
    dictLookup (l₁ ++ l₂) p =
      match dictLookup l₁ p with
      | some v => some v
      | none => dictLookup l₂ p := by
  induction l₁ with
  | nil => simp [dictLookup]
  | cons e rest ih =>
    obtain ⟨q, v⟩ := e
    by_cases h : q = p <;> simp [dictLookup, h, ih]

theorem dictLookup_map_replace {κ β : Type} [DecidableEq κ] (l : List (κ × β))
    (q : κ) (v : β) (p : κ) :
    dictLookup (l.map (fun e => if e.1 = q then (q, v) else e)) p =
      if q = p then (if (dictLookup l q).isSome then some v else none)
      else dictLookup l p := by
  induction l with
  | nil => simp [dictLookup]
  | cons e rest ih =>
    obtain ⟨a, w⟩ := e
    by_cases haq : a = q
    · subst haq
      by_cases hap : a = p
      · subst hap
        simp [dictLookup]
      · simp [dictLookup, hap, ih]
    · by_cases hap : a = p
      · subst hap
        have hqp : ¬ q = a := fun h => haq h.symm
        simp [dictLookup, haq, hqp]
      · simp [dictLookup, haq, hap, ih]

theorem dictLookup_dictInsert {κ β : Type} [DecidableEq κ] (l : List (κ × β))
    (q : κ) (v : β) (p : κ) :
    dictLookup (dictInsert l q v) p = if q = p then some v else dictLookup l p := by
  unfold dictInsert
  by_cases hs : (dictLookup l q).isSome
  · rw [if_pos hs, dictLookup_map_replace]
    by_cases h : q = p
    · subst h; simp [hs]
    · simp [h]
  · rw [if_neg hs, dictLookup_append]
    by_cases h : q = p
    · subst h
      rcases he : dictLookup l q with _ | w
      · simp [dictLookup]
      · rw [he] at hs; simp at hs
    · rcases he : dictLookup l p with _ | w <;> simp [dictLookup, h]

theorem dictLookup_dictErase {κ β : Type} [DecidableEq κ] (l : List (κ × β))
    (q : κ) (p : κ) :
    dictLookup (dictErase l q) p = if q = p then none else dictLookup l p := by
  induction l with
  | nil => simp [dictErase, dictLookup]
  | cons e rest ih =>
    obtain ⟨a, w⟩ := e
    by_cases haq : a = q
    · subst haq
      by_cases hap : a = p
      · subst hap
        simp [dictErase, dictLookup] at ih ⊢
        simpa using ih
      · simp [dictErase, dictLookup, hap] at ih ⊢
        simpa [hap] using ih
    · by_cases hap : a = p
      · subst hap
        have hqp : ¬ q = a := fun h => haq h.symm
        simp [dictErase, dictLookup, haq, hqp]
      · simp [dictErase, dictLookup, haq, hap] at ih ⊢
        exact ih

theorem dictLookup_eq_none_of_not_mem_keys {κ β : Type} [DecidableEq κ]
    (l : List (κ × β)) (p : κ) (h : p ∉ l.map Prod.fst) :
    dictLookup l p = none := by
  induction l with
  | nil => simp [dictLookup]
  | cons e rest ih =>
    obtain ⟨a, w⟩ := e
    simp only [List.map_cons, List.mem_cons] at h
    push_neg at h
    have hap : ¬ a = p := fun hh => h.1 hh.symm
    simp [dictLookup, hap, ih h.2]

/-! ## Claim C10: aggregate_delta reads but never writes the snapshot;
apply_delta_to_tree realizes exactly the delta -/

theorem aggregate_delta_loop_snd (d : TreeDelta) :
    ∀ (t : Tree) (acc : Int × Int × Int), (aggregate_delta_loop t acc d).2 = t := by
  induction d with
  | nil => intro t acc; rfl
  | cons e rest ih =>
    intro t acc
    obtain ⟨path, bs⟩ := e
    simp only [aggregate_delta_loop]
    exact ih t _

theorem dictLookup_apply_delta (d : TreeDelta) :
    ∀ (t : Tree) (p : Path), (d.map Prod.fst).Nodup →
      dictLookup (apply_delta_to_tree t d) p =
        (match dictLookup d p with
         | some none => none
         | some (some s) => some s
         | none => dictLookup t p) := by
  induction d with
  | nil => intro t p _; simp [apply_delta_to_tree, dictLookup]
  | cons e rest ih =>
    intro t p h
    obtain ⟨q, bs⟩ := e
    simp only [List.map_cons, List.nodup_cons] at h
    obtain ⟨hq, hrest⟩ := h
    have step : apply_delta_to_tree t ((q, bs) :: rest) =
        apply_delta_to_tree
          (match bs with
           | none => dictErase t q
           | some s => dictInsert t q s) rest := by
      simp [apply_delta_to_tree]
    rw [step]
    by_cases hpq : q = p
    · subst hpq
      have hnone : dictLookup rest q = none :=
        dictLookup_eq_none_of_not_mem_keys rest q hq
      rw [ih _ q hrest, hnone]
      rcases bs with _ | s
      · simp [dictLookup, dictLookup_dictErase]
      · simp [dictLookup, dictLookup_dictInsert]
    · rw [ih _ p hrest]
      have hd : dictLookup ((q, bs) :: rest) p = dictLookup rest p := by
        simp [dictLookup, hpq]
      rw [hd]
      rcases he : dictLookup rest p with _ | s'
      · rcases bs with _ | s
        · simp [dictLookup_dictErase, hpq]
        · simp [dictLookup_dictInsert, hpq]
      · rcases s' with _ | s'' <;> rfl

/-- Claim C10: computing delta totals with aggregate_delta never mutates
the baseline Tree Snapshot (its loop threads the snapshot through
unchanged), while apply_delta_to_tree mutates it so that every path marked
with the deletion marker maps to nothing (also when it was already absent:
a no-op, not an error), every path with new stats maps to exactly those
stats, and every path not mentioned in the delta is unchanged. -/
theorem claim_C10 (t : Tree) (d : TreeDelta) (acc : Int × Int × Int) (p : Path)
    (h : (d.map Prod.fst).Nodup) :
    (aggregate_delta_loop t acc d).2 = t ∧
    dictLookup (apply_delta_to_tree t d) p =
      (match dictLookup d p with
       | some none => none
       | some (some s) => some s
       | none => dictLookup t p) :=
  ⟨aggregate_delta_loop_snd d t acc, dictLookup_apply_delta d t p h⟩

/-- Witness for claim C10 at a concrete snapshot and delta: the path a is
marked deleted (and is present), the path b receives new stats (and is
fresh), the path c is untouched. -/
theorem claim_C10_witness :
    (([("a", none), ("b", some { loc := 2, cyclomaticComplexity := 2, functions := 2 })]
        : TreeDelta).map Prod.fst).Nodup ∧
    ((aggregate_delta_loop
        [("a", { loc := 1, cyclomaticComplexity := 1, functions := 1 }),
         ("c", { loc := 7, cyclomaticComplexity := 3, functions := 2 })] (0, 0, 0)
        [("a", none), ("b", some { loc := 2, cyclomaticComplexity := 2, functions := 2 })]).2 =
      [("a", { loc := 1, cyclomaticComplexity := 1, functions := 1 }),
       ("c", { loc := 7, cyclomaticComplexity := 3, functions := 2 })] ∧
    dictLookup
        (apply_delta_to_tree
          [("a", { loc := 1, cyclomaticComplexity := 1, functions := 1 }),
           ("c", { loc := 7, cyclomaticComplexity := 3, functions := 2 })]
          [("a", none), ("b", some { loc := 2, cyclomaticComplexity := 2, functions := 2 })])
        "a" =
      (match dictLookup
          ([("a", none), ("b", some { loc := 2, cyclomaticComplexity := 2, functions := 2 })]
            : TreeDelta) "a" with
       | some none => none
       | some (some s) => some s
       | none => dictLookup
          [("a", { loc := 1, cyclomaticComplexity := 1, functions := 1 }),
           ("c", { loc := 7, cyclomaticComplexity := 3, functions := 2 })] "a")) :=
  ⟨by decide, claim_C10 _ _ _ _ (by decide)⟩

/-! ## Claim C7: renaming a file with unchanged content nets deltaLoc 0 -/

theorem tdStep_untracked (ext : Path → Bool) (td : TreeDelta) (d : Diff)
    (h : untrackedDiff ext d) : tdStep ext td d = td := by
  obtain ⟨hAM, hD, hR⟩ := h
  unfold tdStep
  have c1 : ¬((d.change_type = "A" ∨ d.change_type = "M") ∧ ext d.b_path = true) := by
    rintro ⟨h1, h2⟩
    rw [hAM h1] at h2
    exact Bool.false_ne_true h2
  have c2 : ¬(d.change_type = "D" ∧ ext d.a_path = true) := by
    rintro ⟨h1, h2⟩
    rw [hD h1] at h2
    exact Bool.false_ne_true h2
  by_cases h3 : strStartsWith d.change_type "R" = true
  · have ca : ¬(ext d.a_path = true) := by
      rw [(hR h3).1]; exact Bool.false_ne_true
    have cb : ¬(ext d.b_path = true) := by
      rw [(hR h3).2]; exact Bool.false_ne_true
    simp only [if_neg c1, if_neg c2, if_pos h3, if_neg ca, if_neg cb]
  · simp only [if_neg c1, if_neg c2, if_neg h3]

theorem foldl_tdStep_untracked (ext : Path → Bool) (diffs : List Diff)
    (td : TreeDelta) (h : ∀ d ∈ diffs, untrackedDiff ext d) :
    diffs.foldl (tdStep ext) td = td := by
  induction diffs generalizing td with
  | nil => rfl
  | cons d rest ih =>
    rw [List.foldl_cons, tdStep_untracked ext td d (h d (by simp))]
    exact ih td (fun d' hd' => h d' (by simp [hd']))

theorem tdStep_renameDiff (ext : Path → Bool) (aP bP : Path) (b : Blob)
    (lines : List String) (hextA : ext aP = true) (hextB : ext bP = true)
    (hne : aP ≠ bP) :
    tdStep ext [] (renameDiff aP bP b lines) = [(aP, none), (bP, some (blob_stats b))] := by
  unfold tdStep renameDiff
  have c1 : ¬((("R100" : String) = "A" ∨ ("R100" : String) = "M") ∧ ext bP = true) := by
    rintro ⟨h1 | h1, _⟩ <;> exact absurd h1 (by decide)
  have c2 : ¬(("R100" : String) = "D" ∧ ext aP = true) := by
    rintro ⟨h1, _⟩
    exact absurd h1 (by decide)
  have h3 : strStartsWith "R100" "R" = true := by decide
  simp only []
  rw [if_neg c1, if_neg c2, if_pos h3, if_pos hextA, if_pos hextB]
  have e1 : dictInsert ([] : TreeDelta) aP none = [(aP, none)] := by
    simp [dictInsert, dictLookup]
  rw [e1]
  have e2 : dictInsert [(aP, (none : Option BlobStats))] bP (some (blob_stats_opt (some b)))
      = [(aP, none), (bP, some (blob_stats b))] := by
    have hl : dictLookup [(aP, (none : Option BlobStats))] bP = none := by
      simp [dictLookup, hne]
    simp [dictInsert, hl, blob_stats_opt]
  rw [e2]

/-- Claim C7: for a commit whose only change among supported-extension
files is a rename with byte-identical content (so the snapshot's stats for
the old path equal the measurement of the new blob, the new path being
fresh), the tree delta marks the old path deleted and the new path added
with identical stats, and the aggregated deltaLoc nets to 0: the
subtraction of the old path's snapshot stats cancels the addition of the
new path's stats. -/
theorem claim_C7 (ext : Path → Bool) (prevTree : Tree) (pre post : List Diff)
    (aP bP : Path) (b : Blob) (lines : List String)
    (hpre : ∀ d ∈ pre, untrackedDiff ext d)
    (hpost : ∀ d ∈ post, untrackedDiff ext d)
    (hextA : ext aP = true) (hextB : ext bP = true) (hne : aP ≠ bP)
    (hsnap : dictLookup prevTree aP = some (blob_stats b))
    (hfresh : dictLookup prevTree bP = none) :
    tree_delta ext (pre ++ renameDiff aP bP b lines :: post) =
      [(aP, none), (bP, some (blob_stats b))] ∧
    (aggregate_delta prevTree
      (tree_delta ext (pre ++ renameDiff aP bP b lines :: post))).1 = 0 := by
  have htd : tree_delta ext (pre ++ renameDiff aP bP b lines :: post) =
      [(aP, none), (bP, some (blob_stats b))] := by
    unfold tree_delta
    rw [List.foldl_append, foldl_tdStep_untracked ext pre [] hpre, List.foldl_cons,
      tdStep_renameDiff ext aP bP b lines hextA hextB hne,
      foldl_tdStep_untracked ext post _ hpost]
  refine ⟨htd, ?_⟩
  rw [htd]
  unfold aggregate_delta aggregate_delta_loop
  rw [hsnap]
  unfold aggregate_delta_loop
  rw [hfresh]
  unfold aggregate_delta_loop
  simp

/-- Witness for claim C7: a concrete rename of a one-function file from
path a.c to path b.c with unchanged content, no other diffs, and a snapshot
holding exactly the old path's stats. -/
theorem claim_C7_witness :
    extAll "a.c" = true ∧ extAll "b.c" = true ∧ ("a.c" : Path) ≠ "b.c" ∧
    dictLookup [(("a.c" : Path), blob_stats wBlob)] "a.c" = some (blob_stats wBlob) ∧
    dictLookup [(("a.c" : Path), blob_stats wBlob)] "b.c" = none ∧
    (tree_delta extAll ([] ++ renameDiff "a.c" "b.c" wBlob [] :: []) =
      [("a.c", none), ("b.c", some (blob_stats wBlob))] ∧
    (aggregate_delta [(("a.c" : Path), blob_stats wBlob)]
      (tree_delta extAll ([] ++ renameDiff "a.c" "b.c" wBlob [] :: []))).1 = 0) :=
  ⟨rfl, rfl, by decide, by decide, by decide,
    claim_C7 extAll [("a.c", blob_stats wBlob)] [] [] "a.c" "b.c" wBlob []
      (by simp) (by simp) rfl rfl (by decide) (by decide) (by decide)⟩

/-! ## Claim C2: the hunk decomposition of blob_delta -/

theorem blobDeltaGo_eq_hunks (lines : List String) :
    ∀ (cA cB : String) (plus : Bool) (acc : Nat),
      blobDeltaGo lines cA cB plus acc =
        acc + ((hunksGo lines cA cB plus).map (fun h => editDistanceStr h.1 h.2)).sum := by
  induction lines with
  | nil => intro cA cB plus acc; simp [blobDeltaGo, hunksGo]
  | cons line rest ih =>
    intro cA cB plus acc
    by_cases h1 : (strStartsWith line "---" || strStartsWith line "+++") = true
    · simp only [blobDeltaGo, hunksGo, if_pos h1]
      exact ih cA cB plus acc
    · by_cases h2 : strStartsWith line "+" = true
      · simp only [blobDeltaGo, hunksGo, if_neg h1, if_pos h2]
        exact ih _ _ true acc
      · rcases plus with _ | _
        · simp only [blobDeltaGo, hunksGo, if_neg h1, if_neg h2, if_neg Bool.false_ne_true]
          exact ih _ cB false acc
        · simp only [blobDeltaGo, hunksGo, if_neg h1, if_neg h2, ite_true,
            List.map_cons, List.sum_cons]
          rw [ih "" "" false _]
          omega

/-- Claim C2 (amended): for every modified or renamed file, the unified
line diff is partitioned into the hunks produced by the blob_delta state
machine — a hunk ends when a run of added lines is followed by a non-added
line or the diff ends, and a removed line that immediately follows the
added run contributes its text to the ending hunk's removed content rather
than to the next hunk — and the file's contribution is the sum over these
hunks of the Levenshtein distance between the concatenated removed-line
text and the concatenated added-line text, a hunk with only additions or
only removals being compared against the empty string. -/
theorem claim_C2 (lines : List String) :
    blob_delta lines = ((hunks lines).map (fun h => editDistanceStr h.1 h.2)).sum := by
  unfold blob_delta hunks
  rw [blobDeltaGo_eq_hunks]
  simp

/-- Counterexample to claim C2 as stated: on the diff with lines -a, +ab,
-b, the spec's hunk grouping (the removed line following the added run
starts a new hunk) yields the hunks (a, ab) and (b, empty) with total
Levenshtein distance 2, but blob_delta folds the trailing removed line into
the flushed hunk, computing distance(ab, ab) = 0. -/
theorem claim_C2_counterexample :
    blob_delta ["-a", "+ab", "-b"] = 0 ∧
    hunksSpecGo ["-a", "+ab", "-b"] "" "" false = [("a", "ab"), ("b", "")] ∧
    blob_delta_spec ["-a", "+ab", "-b"] = 2 ∧
    blob_delta ["-a", "+ab", "-b"] ≠ blob_delta_spec ["-a", "+ab", "-b"] := by
  refine ⟨by decide, by decide, by decide, by decide⟩

/-! ## Claim C3: the Commit Chain Builder contract -/

theorem createDataSetLoop_eq_filter (p : Params) (chain : List RawCommit) :
    createDataSetLoop p chain = chain.filter (analyzable p) := by
  unfold createDataSetLoop
  suffices h : ∀ acc,
      chain.foldl (fun data c => if analyzable p c then data ++ [c] else data) acc =
        acc ++ chain.filter (analyzable p) by
    simpa using h []
  induction chain with
  | nil => intro acc; simp
  | cons c rest ih =>
    intro acc
    by_cases hc : analyzable p c = true
    · simp [hc, ih, List.filter_cons]
    · simp [hc, ih, List.filter_cons]

/-- Claim C3: the Commit Chain Builder returns exactly the commits of the
raw log whose committed time lies strictly between start and end, whose
parent count is exactly 1 and which are not matched by the exclusion
predicates, in oldest-first order (the reverse of the provider's
newest-first log, filtered in order); and it fails with a user-facing error
if and only if this filtered sequence is empty or the log could not be
retrieved. -/
theorem claim_C3 (raw : Except String (List RawCommit)) (p : Params) :
    (∀ d, createDataSet raw p = Except.ok d ↔
      (∃ l, raw = Except.ok l ∧ d = (chainOf l).filter (analyzable p) ∧ d ≠ [])) ∧
    ((∃ msg, createDataSet raw p = Except.error msg) ↔
      ((∃ e, raw = Except.error e) ∨
        (∃ l, raw = Except.ok l ∧ (chainOf l).filter (analyzable p) = []))) := by
  rcases raw with e | l
  · constructor
    · intro d
      constructor
      · intro h
        exact absurd h (by simp [createDataSet])
      · rintro ⟨l, hl, -⟩
        exact absurd hl (by simp)
    · constructor
      · intro _
        exact Or.inl ⟨e, rfl⟩
      · intro _
        exact ⟨"Git command failed: " ++ e, rfl⟩
  · have hrun : createDataSet (Except.ok l) p =
        (if ((chainOf l).filter (analyzable p)).isEmpty then
          Except.error "No commits found on the branch in the interval."
         else Except.ok ((chainOf l).filter (analyzable p))) := by
      simp [createDataSet, createDataSetLoop_eq_filter]
    by_cases he : (chainOf l).filter (analyzable p) = []
    · rw [hrun, if_pos (by simp [he])]
      constructor
      · intro d
        constructor
        · intro h
          exact absurd h (by simp)
        · rintro ⟨l', hl', hd, hne⟩
          rw [Except.ok.injEq] at hl'
          subst hl'
          exact absurd (hd.trans he) hne
      · constructor
        · intro _
          exact Or.inr ⟨l, rfl, he⟩
        · intro _
          exact ⟨"No commits found on the branch in the interval.", rfl⟩
    · rw [hrun, if_neg (by simpa using he)]
      constructor
      · intro d
        constructor
        · intro h
          rw [Except.ok.injEq] at h
          exact ⟨l, rfl, h.symm, fun hh => he (h.trans hh)⟩
        · rintro ⟨l', hl', hd, -⟩
          rw [Except.ok.injEq] at hl'
          subst hl'
          rw [hd]
      · constructor
        · rintro ⟨msg, hmsg⟩
          exact absurd hmsg (by simp)
        · rintro (⟨e, he'⟩ | ⟨l', hl', hflt⟩)
          · exact absurd he' (by simp)
          · rw [Except.ok.injEq] at hl'
            subst hl'
            exact absurd hflt he

/-! ## Claim C4: the backward walks run over the full unfiltered chain -/

theorem walk_counts_all_in_window (t : Int) (prevs : List RawCommit) :
    ∀ (m : Nat) (cm : RawCommit) (cutOff : Int),
      prevs[m]? = some cm →
      (∀ k ck, k ≤ m → prevs[k]? = some ck → cutOff < ck.committed_date) →
      cm.author ∈ activeAuthorsL prevs cutOff ∧
      m + 1 ≤ commitsInWindow prevs cutOff ∧
      (daysSincePrev prevs cm.author t cutOff).isSome = true := by
  induction prevs with
  | nil =>
    intro m cm cutOff hm _
    simp at hm
  | cons c rest ih =>
    intro m cm cutOff hm hwin
    have hc : cutOff < c.committed_date :=
      hwin 0 c (Nat.zero_le m) List.getElem?_cons_zero
    rcases m with _ | m'
    · rw [List.getElem?_cons_zero] at hm
      obtain rfl : c = cm := by injection hm
      refine ⟨?_, ?_, ?_⟩
      · rw [show activeAuthorsL (c :: rest) cutOff
            = insert c.author (activeAuthorsL rest cutOff) from by
          simp [activeAuthorsL, if_pos hc]]
        exact Finset.mem_insert_self _ _
      · rw [show commitsInWindow (c :: rest) cutOff
            = commitsInWindow rest cutOff + 1 from by
          simp [commitsInWindow, if_pos hc]]
        omega
      · simp [daysSincePrev, if_pos hc]
    · rw [List.getElem?_cons_succ] at hm
      have hwin' : ∀ k ck, k ≤ m' → rest[k]? = some ck → cutOff < ck.committed_date :=
        fun k ck hk hck => hwin (k + 1) ck (by omega) (by simpa using hck)
      obtain ⟨h1, h2, h3⟩ := ih m' cm cutOff hm hwin'
      refine ⟨?_, ?_, ?_⟩
      · rw [show activeAuthorsL (c :: rest) cutOff
            = insert c.author (activeAuthorsL rest cutOff) from by
          simp [activeAuthorsL, if_pos hc]]
        exact Finset.mem_insert_of_mem h1
      · rw [show commitsInWindow (c :: rest) cutOff
            = commitsInWindow rest cutOff + 1 from by
          simp [commitsInWindow, if_pos hc]]
        omega
      · by_cases hauth : c.author = cm.author
        · simp [daysSincePrev, if_pos hc, hauth]
        · simpa [daysSincePrev, if_pos hc, hauth] using h3

theorem prevsAt_getElem? (chain : List RawCommit) (i k : Nat)
    (hk : k < i) (hi : i ≤ chain.length) :
    (prevsAt chain i)[k]? = chain[i - 1 - k]? := by
  unfold prevsAt
  have hlen : (chain.take i).length = i := by
    rw [List.length_take]
    omega
  rw [List.getElem?_reverse (by rw [hlen]; exact hk), hlen, List.getElem?_take]
  rw [if_pos (by omega)]

/-- Claim C4: a commit matched by the author/commit exclusion predicates
never appears in the analyzable data set, yet the previous/next links are
built over the unfiltered full chain, so the backward walks of the windowed
activity analyzers traverse it whenever every chain record from it up to
the walking commit lies inside the window: its author is collected by the
active-developer walk, it is counted by the commits-in-last-24h style walk,
and when its author matches, the days-since-previous walk finds a match. -/
theorem claim_C4 (p : Params) (chain : List RawCommit) (i j : Nat)
    (ci cj : RawCommit) (cutOff t : Int)
    (hi : chain[i]? = some ci) (hj : chain[j]? = some cj) (hji : j < i)
    (hexcl : filter_match cj p.filtered_authors p.filtered_commits = true)
    (hwin : ∀ k ck, j ≤ k → k < i → chain[k]? = some ck →
      cutOff < ck.committed_date) :
    cj ∉ dataOf p chain ∧
    cj.author ∈ activeAuthorsL (prevsAt chain i) cutOff ∧
    i - j ≤ commitsInWindow (prevsAt chain i) cutOff ∧
    (daysSincePrev (prevsAt chain i) cj.author t cutOff).isSome = true := by
  have hilen : i < chain.length := by
    by_contra hcon
    rw [List.getElem?_eq_none (by omega)] at hi
    exact Option.noConfusion hi
  have hnotdata : cj ∉ dataOf p chain := by
    intro hmem
    rw [dataOf, List.mem_filter] at hmem
    have : analyzable p cj = true := hmem.2
    unfold analyzable at this
    rw [hexcl] at this
    simp at this
  have hm : (prevsAt chain i)[i - 1 - j]? = some cj := by
    rw [prevsAt_getElem? chain i (i - 1 - j) (by omega) (by omega)]
    rw [show i - 1 - (i - 1 - j) = j from by omega]
    exact hj
  have hwalkwin : ∀ k ck, k ≤ i - 1 - j → (prevsAt chain i)[k]? = some ck →
      cutOff < ck.committed_date := by
    intro k ck hk hck
    rw [prevsAt_getElem? chain i k (by omega) (by omega)] at hck
    exact hwin (i - 1 - k) ck (by omega) (by omega) hck
  obtain ⟨h1, h2, h3⟩ :=
    walk_counts_all_in_window t (prevsAt chain i) (i - 1 - j) cj cutOff hm hwalkwin
  exact ⟨hnotdata, h1, by omega, h3⟩

/-- Witness for claim C4: a two-commit chain whose first commit is excluded
by the author filter; the walk from the second commit still collects its
author, counts it, and finds it as the previous commit by the same
author. -/
theorem claim_C4_witness :
    wC4chain[1]? = some wC4b ∧ wC4chain[0]? = some wC4a ∧ (0 : Nat) < 1 ∧
    filter_match wC4a wC4params.filtered_authors wC4params.filtered_commits = true ∧
    (wC4a ∉ dataOf wC4params wC4chain ∧
     wC4a.author ∈ activeAuthorsL (prevsAt wC4chain 1) 0 ∧
     1 - 0 ≤ commitsInWindow (prevsAt wC4chain 1) 0 ∧
     (daysSincePrev (prevsAt wC4chain 1) wC4a.author 20 0).isSome = true) :=
  ⟨rfl, rfl, by omega, by decide,
    claim_C4 wC4params wC4chain 1 0 wC4b wC4a 0 20 rfl rfl (by omega) (by decide)
      (by
        intro k ck hk0 hk1 hck
        obtain rfl : k = 0 := by omega
        rw [show wC4chain[0]? = some wC4a from rfl] at hck
        obtain rfl : wC4a = ck := by injection hck
        decide)⟩

/-! ## Claim C8: monotonicity in the activity window -/

theorem activeAuthorsL_subset (prevs : List RawCommit) :
    ∀ (c1 c2 : Int), c2 ≤ c1 →
      activeAuthorsL prevs c1 ⊆ activeAuthorsL prevs c2 := by
  induction prevs with
  | nil => intro c1 c2 _; simp [activeAuthorsL]
  | cons c rest ih =>
    intro c1 c2 hle
    by_cases h : c1 < c.committed_date
    · have h2 : c2 < c.committed_date := by omega
      rw [show activeAuthorsL (c :: rest) c1
          = insert c.author (activeAuthorsL rest c1) from by
        simp [activeAuthorsL, if_pos h]]
      rw [show activeAuthorsL (c :: rest) c2
          = insert c.author (activeAuthorsL rest c2) from by
        simp [activeAuthorsL, if_pos h2]]
      exact Finset.insert_subset_insert _ (ih c1 c2 hle)
    · rw [show activeAuthorsL (c :: rest) c1 = ∅ from by
        simp [activeAuthorsL, if_neg h]]
      exact Finset.empty_subset _

/-- Claim C8: for a fixed commit and fixed chain, the active-developer
count computed with a larger activity window is greater than or equal to
the count computed with a smaller one, and the commits-in-last-24h count is
identical under the two windows (it uses the fixed one-day cutoff and never
reads the activity window). -/
theorem claim_C8 (chain : List RawCommit) (p : Params) (i : Nat) (w1 w2 : Int)
    (h : w1 ≤ w2) :
    (annActiveDevelopers { p with interval := w1 } chain i).getD 0 ≤
      (annActiveDevelopers { p with interval := w2 } chain i).getD 0 ∧
    annCommitsInLast24h { p with interval := w1 } chain i =
      annCommitsInLast24h { p with interval := w2 } chain i := by
  refine ⟨?_, rfl⟩
  unfold annActiveDevelopers
  rcases hc : chain[i]? with _ | c
  · simp
  · by_cases ha : analyzable { p with interval := w2 } c = true
    · have ha1 : analyzable { p with interval := w1 } c = true := ha
      simp only [ha, ha1, if_true, Option.getD_some]
      exact Finset.card_le_card (activeAuthorsL_subset _ _ _ (by omega))
    · have ha1 : ¬ analyzable { p with interval := w1 } c = true := ha
      simp [ha, ha1]

/-- Witness for claim C8 at the concrete two-commit chain with windows 5
and 30. -/
theorem claim_C8_witness :
    (5 : Int) ≤ 30 ∧
    ((annActiveDevelopers { cexParams with interval := 5 } wC4chain 1).getD 0 ≤
      (annActiveDevelopers { cexParams with interval := 30 } wC4chain 1).getD 0 ∧
     annCommitsInLast24h { cexParams with interval := 5 } wC4chain 1 =
      annCommitsInLast24h { cexParams with interval := 30 } wC4chain 1) :=
  ⟨by decide, claim_C8 wC4chain cexParams 1 5 30 (by decide)⟩

/-! ## Claim C9: an analyzable chain-initial commit keeps an unset distance
and survives tabulation -/

/-- Claim C9: for an analyzable commit whose previous link is None (the
very first commit of the full unfiltered log, chain position 0), the
Edit-Distance Analyzer skips it, leaving its levenshteinDistance unset
rather than 0; the tabulation step's zero-distance exclusion compares the
unset value against 0 without matching (Python None == 0 is False), so the
commit stays in the final report with an empty distance value. -/
theorem claim_C9 (ext : Path → Bool) (p : Params) (chain : List RawCommit)
    (c0 : RawCommit) (hc : chain[0]? = some c0) (ha : analyzable p c0 = true) :
    annLevenshtein ext p chain 0 = none ∧
    0 ∈ dataIdx p chain ∧
    0 ∈ tabulateKept ext p chain := by
  rcases chain with _ | ⟨c, rest⟩
  · rw [List.getElem?_nil] at hc
    exact Option.noConfusion hc
  · rw [List.getElem?_cons_zero] at hc
    obtain rfl : c = c0 := by injection hc
    have h1 : annLevenshtein ext p (c :: rest) 0 = none := by
      simp [annLevenshtein, ha]
    have h2 : 0 ∈ dataIdx p (c :: rest) := by
      rw [dataIdx, List.enum_cons]
      rw [List.filter_cons, if_pos (by simpa using ha)]
      simp
    refine ⟨h1, h2, ?_⟩
    rw [tabulateKept, List.mem_filter]
    refine ⟨h2, ?_⟩
    simp [h1]

/-- Witness for claim C9: a one-commit chain whose only commit is
analyzable. -/
theorem claim_C9_witness :
    ([wC9c] : List RawCommit)[0]? = some wC9c ∧
    analyzable cexParams wC9c = true ∧
    (annLevenshtein extAll cexParams [wC9c] 0 = none ∧
     0 ∈ dataIdx cexParams [wC9c] ∧
     0 ∈ tabulateKept extAll cexParams [wC9c]) :=
  ⟨rfl, by decide, claim_C9 extAll cexParams [wC9c] wC9c rfl (by decide)⟩

/-! ## Claim C5: the Contribution Tracker's per-function update -/

theorem bumpContrib_eq (o : Option Nat) (d : Nat) :
    bumpContrib o d = some (o.getD 0 + d) := by
  rcases o with _ | v
  · simp [bumpContrib]
  · by_cases hv : v = 0 <;> simp [bumpContrib, hv]

/-- Claim C5: for every function of the caller-supplied complex-functions
set that is re-measured at a commit, with the previous value defaulting to
0 when absent from the Function Complexity Map: the decrease field is
accumulated by the difference exactly when the previous value exceeded 11
and the new value is lower, the increase field is accumulated by the
difference exactly when the new value exceeds 11 and is higher, and in all
cases the map entry is updated to the new value. -/
theorem claim_C5 (complex_functions : List String) (m : List (String × Nat))
    (fields : ContribFields) (f : String) (cx : Nat)
    (hmem : f ∈ complex_functions) :
    dictLookup (contribStep complex_functions (m, fields) (f, cx)).1 f = some cx ∧
    (contribStep complex_functions (m, fields) (f, cx)).2.dec =
      (if 11 < (dictLookup m f).getD 0 ∧ cx < (dictLookup m f).getD 0 then
        some (fields.dec.getD 0 + ((dictLookup m f).getD 0 - cx))
       else fields.dec) ∧
    (contribStep complex_functions (m, fields) (f, cx)).2.inc =
      (if 11 < cx ∧ (dictLookup m f).getD 0 < cx then
        some (fields.inc.getD 0 + (cx - (dictLookup m f).getD 0))
       else fields.inc) := by
  have hmem' : ((f, cx) : String × Nat).1 ∈ complex_functions := hmem
  refine ⟨?_, ?_, ?_⟩
  · simp only [contribStep]
    rw [dictLookup_dictInsert]
    simp
  · simp only [contribStep, if_pos hmem']
    unfold update_complex_function_contribution_of_commit
    by_cases hdec : 11 < (dictLookup m f).getD 0 ∧ cx < (dictLookup m f).getD 0
    · have hinc : ¬(11 < cx ∧ (dictLookup m f).getD 0 < cx) := by omega
      simp only [if_pos hdec, if_neg hinc, bumpContrib_eq]
    · by_cases hinc : 11 < cx ∧ (dictLookup m f).getD 0 < cx
      · simp only [if_neg hdec, if_pos hinc]
      · simp only [if_neg hdec, if_neg hinc]
  · simp only [contribStep, if_pos hmem']
    unfold update_complex_function_contribution_of_commit
    by_cases hdec : 11 < (dictLookup m f).getD 0 ∧ cx < (dictLookup m f).getD 0
    · have hinc : ¬(11 < cx ∧ (dictLookup m f).getD 0 < cx) := by omega
      simp only [if_pos hdec, if_neg hinc]
    · by_cases hinc : 11 < cx ∧ (dictLookup m f).getD 0 < cx
      · simp only [if_neg hdec, if_pos hinc, bumpContrib_eq]
      · simp only [if_neg hdec, if_neg hinc]

/-- Witness for claim C5: the function f, previously recorded at complexity
20, is re-measured at 5; the commit's decrease field accumulates 15 and the
map entry becomes 5. -/
theorem claim_C5_witness :
    ("f" : String) ∈ ["f"] ∧
    (dictLookup (contribStep ["f"]
        ([("f", 20)], { inc := none, dec := none }) ("f", 5)).1 "f" = some 5 ∧
    (contribStep ["f"] ([("f", 20)], { inc := none, dec := none }) ("f", 5)).2.dec =
      (if 11 < (dictLookup [("f", 20)] "f").getD 0 ∧
          5 < (dictLookup [("f", 20)] "f").getD 0 then
        some ((none : Option Nat).getD 0 + ((dictLookup [("f", 20)] "f").getD 0 - 5))
       else none) ∧
    (contribStep ["f"] ([("f", 20)], { inc := none, dec := none }) ("f", 5)).2.inc =
      (if 11 < 5 ∧ (dictLookup [("f", 20)] "f").getD 0 < 5 then
        some ((none : Option Nat).getD 0 + (5 - (dictLookup [("f", 20)] "f").getD 0))
       else none)) :=
  ⟨by decide, claim_C5 ["f"] [("f", 20)] { inc := none, dec := none } "f" 5 (by decide)⟩

/-! ## Claim C1: absolute and delta fields chain through the previous
analyzable commit -/

theorem sizeFieldsList_head (ext : Path → Bool) (t : Tree) (base : Int × Int × Int)
    (data : List RawCommit) (f0 : SizeFields)
    (h : (sizeFieldsList ext t base data)[0]? = some f0) :
    f0.loc = base.1 + f0.dLoc ∧ f0.cc = base.2.1 + f0.dCC ∧
    f0.fns = base.2.2 + f0.dFns := by
  rcases data with _ | ⟨c, rest⟩
  · simp [sizeFieldsList] at h
  · simp only [sizeFieldsList, List.getElem?_cons_zero] at h
    obtain rfl : _ = f0 := by injection h
    exact ⟨rfl, rfl, rfl⟩

theorem sizeFieldsList_step (ext : Path → Bool) :
    ∀ (data : List RawCommit) (t : Tree) (base : Int × Int × Int) (k : Nat)
      (g f : SizeFields),
      (sizeFieldsList ext t base data)[k]? = some g →
      (sizeFieldsList ext t base data)[k + 1]? = some f →
      f.loc = g.loc + f.dLoc ∧ f.cc = g.cc + f.dCC ∧ f.fns = g.fns + f.dFns := by
  intro data
  induction data with
  | nil => intro t base k g f hg _; simp [sizeFieldsList] at hg
  | cons c rest ih =>
    intro t base k g f hg hf
    rcases k with _ | k'
    · simp only [sizeFieldsList, List.getElem?_cons_zero] at hg
      obtain rfl : _ = g := by injection hg
      simp only [sizeFieldsList, List.getElem?_cons_succ] at hf
      exact sizeFieldsList_head ext _ _ rest f hf
    · simp only [sizeFieldsList, List.getElem?_cons_succ] at hg hf
      exact ih _ _ k' g f hg hf

/-- Claim C1 (amended): for the commits annotated by the size/complexity
aggregator, each absolute field equals the previous ANALYZABLE commit's
absolute field plus the delta field — the chaining runs through the data
sequence (for the first analyzable commit, through the seeded baseline of
the parent's full tree), not through the doubly-linked chain predecessor,
which can be an excluded commit whose absolute fields are never written. -/
theorem claim_C1 (ext : Path → Bool) (data : List RawCommit) (t : Tree)
    (base : Int × Int × Int) (k : Nat) (f0 g f : SizeFields)
    (h0 : (sizeFieldsList ext t base data)[0]? = some f0)
    (hg : (sizeFieldsList ext t base data)[k]? = some g)
    (hf : (sizeFieldsList ext t base data)[k + 1]? = some f) :
    (f0.loc = base.1 + f0.dLoc ∧ f0.cc = base.2.1 + f0.dCC ∧
      f0.fns = base.2.2 + f0.dFns) ∧
    (f.loc = g.loc + f.dLoc ∧ f.cc = g.cc + f.dCC ∧ f.fns = g.fns + f.dFns) :=
  ⟨sizeFieldsList_head ext t base data f0 h0,
   sizeFieldsList_step ext data t base k g f hg hf⟩

/-- Counterexample to claim C1 as stated: in the chain cexChain under
cexParams, the commit at chain position 1 is analyzable and annotated, but
the commit immediately preceding it in the doubly-linked chain (position 0,
a merge commit) is excluded and its absolute fields stay unset, so no
previous absolute value exists for the claimed equation
deltaLoc(C) = loc(C) - loc(C.previous). -/
theorem claim_C1_counterexample :
    (annSize extAll cexParams cexChain 1).isSome = true ∧
    annSize extAll cexParams cexChain 0 = none ∧
    ¬ ∃ (fC fP : SizeFields),
        annSize extAll cexParams cexChain 1 = some fC ∧
        annSize extAll cexParams cexChain 0 = some fP ∧
        fC.dLoc = fC.loc - fP.loc := by
  refine ⟨by decide, by decide, ?_⟩
  rintro ⟨fC, fP, -, h2, -⟩
  rw [show annSize extAll cexParams cexChain 0 = none from by decide] at h2
  exact Option.noConfusion h2

/-- Witness for claim C1 at a concrete two-commit data sequence with empty
diffs over an empty baseline. -/
theorem claim_C1_witness :
    (sizeFieldsList extAll [] (0, 0, 0) [wC9c, wC4b])[0]? =
      some { loc := 0, dLoc := 0, cc := 0, dCC := 0, fns := 0, dFns := 0 } ∧
    (sizeFieldsList extAll [] (0, 0, 0) [wC9c, wC4b])[0 + 1]? =
      some { loc := 0, dLoc := 0, cc := 0, dCC := 0, fns := 0, dFns := 0 } ∧
    (({ loc := 0, dLoc := 0, cc := 0, dCC := 0, fns := 0, dFns := 0 }
        : SizeFields).loc = (0 : Int) +
        ({ loc := 0, dLoc := 0, cc := 0, dCC := 0, fns := 0, dFns := 0 }
          : SizeFields).dLoc ∧
      ({ loc := 0, dLoc := 0, cc := 0, dCC := 0, fns := 0, dFns := 0 }
        : SizeFields).cc = (0 : Int) +
        ({ loc := 0, dLoc := 0, cc := 0, dCC := 0, fns := 0, dFns := 0 }
          : SizeFields).dCC ∧
      ({ loc := 0, dLoc := 0, cc := 0, dCC := 0, fns := 0, dFns := 0 }
        : SizeFields).fns = (0 : Int) +
        ({ loc := 0, dLoc := 0, cc := 0, dCC := 0, fns := 0, dFns := 0 }
          : SizeFields).dFns) ∧
    (({ loc := 0, dLoc := 0, cc := 0, dCC := 0, fns := 0, dFns := 0 }
        : SizeFields).loc =
        ({ loc := 0, dLoc := 0, cc := 0, dCC := 0, fns := 0, dFns := 0 }
          : SizeFields).loc +
        ({ loc := 0, dLoc := 0, cc := 0, dCC := 0, fns := 0, dFns := 0 }
          : SizeFields).dLoc ∧
      ({ loc := 0, dLoc := 0, cc := 0, dCC := 0, fns := 0, dFns := 0 }
        : SizeFields).cc =
        ({ loc := 0, dLoc := 0, cc := 0, dCC := 0, fns := 0, dFns := 0 }
          : SizeFields).cc +
        ({ loc := 0, dLoc := 0, cc := 0, dCC := 0, fns := 0, dFns := 0 }
          : SizeFields).dCC ∧
      ({ loc := 0, dLoc := 0, cc := 0, dCC := 0, fns := 0, dFns := 0 }
        : SizeFields).fns =
        ({ loc := 0, dLoc := 0, cc := 0, dCC := 0, fns := 0, dFns := 0 }
          : SizeFields).fns +
        ({ loc := 0, dLoc := 0, cc := 0, dCC := 0, fns := 0, dFns := 0 }
          : SizeFields).dFns) := by
  refine ⟨by decide, by decide, ?_⟩
  exact
    (claim_C1 extAll [wC9c, wC4b] [] (0, 0, 0) 0
      { loc := 0, dLoc := 0, cc := 0, dCC := 0, fns := 0, dFns := 0 }
      { loc := 0, dLoc := 0, cc := 0, dCC := 0, fns := 0, dFns := 0 }
      { loc := 0, dLoc := 0, cc := 0, dCC := 0, fns := 0, dFns := 0 }
      (by decide) (by decide) (by decide))

/-! ## Claim C6: the Finder maps exactly the over-15 names to their
observed maximum -/

theorem foldl_max_eq (l : List Nat) : ∀ a, List.foldl max a l = max a (List.foldl max 0 l) := by
  induction l with
  | nil => intro a; simp
  | cons x rest ih =>
    intro a
    rw [List.foldl_cons, List.foldl_cons, ih (max a x), ih (max 0 x)]
    omega

theorem le_foldl_max (l : List Nat) (w : Nat) (a : Nat) (h : w ∈ l) :
    w ≤ List.foldl max a l := by
  induction l with
  | nil => simp at h
  | cons x rest ih =>
    rw [List.foldl_cons, foldl_max_eq]
    rcases List.mem_cons.mp h with rfl | hmem
    · omega
    · have := ih hmem
      rw [foldl_max_eq] at this
      omega

theorem foldRecord_some_of_gt (ccs : List Nat) :
    ∀ v, 15 < v → foldRecord (some v) ccs = some (List.foldl max v ccs) := by
  induction ccs with
  | nil => intro v _; simp [foldRecord]
  | cons cc rest ih =>
    intro v hv
    by_cases h15 : 15 < cc
    · rw [show foldRecord (some v) (cc :: rest)
          = foldRecord (some (maxOpt cc (some v))) rest from by
        simp [foldRecord, if_pos h15]]
      rw [show maxOpt cc (some v) = max cc v from rfl]
      rw [ih (max cc v) (by omega), List.foldl_cons]
      rw [show max v cc = max cc v from Nat.max_comm v cc]
    · rw [show foldRecord (some v) (cc :: rest) = foldRecord (some v) rest from by
        simp [foldRecord, if_neg h15]]
      rw [ih v hv, List.foldl_cons]
      rw [show max v cc = v from by omega]

theorem foldRecord_none_char (ccs : List Nat) :
    foldRecord none ccs =
      (if ccs.any (fun w => decide (15 < w)) then some (listMax ccs) else none) := by
  induction ccs with
  | nil => simp [foldRecord]
  | cons cc rest ih =>
    by_cases h15 : 15 < cc
    · rw [show foldRecord none (cc :: rest)
          = foldRecord (some (maxOpt cc none)) rest from by
        simp [foldRecord, if_pos h15]]
      rw [show maxOpt cc none = cc from rfl]
      rw [foldRecord_some_of_gt rest cc h15]
      rw [if_pos (by simp [List.any_cons]; omega)]
      unfold listMax
      rw [List.foldl_cons]
      rw [show max 0 cc = cc from by omega]
    · rw [show foldRecord none (cc :: rest) = foldRecord none rest from by
        simp [foldRecord, if_neg h15]]
      rw [ih]
      have hany : ((cc :: rest).any (fun w => decide (15 < w)))
          = (rest.any (fun w => decide (15 < w))) := by
        simp [List.any_cons]
        intro h
        omega
      rw [hany]
      by_cases ha : rest.any (fun w => decide (15 < w)) = true
      · rw [if_pos ha, if_pos ha]
        obtain ⟨w, hwmem, hw15⟩ := List.any_eq_true.mp ha
        have hw : 15 < w := of_decide_eq_true hw15
        unfold listMax
        rw [List.foldl_cons, foldl_max_eq rest (max 0 cc)]
        have hle : w ≤ List.foldl max 0 rest := le_foldl_max rest w 0 hwmem
        rw [show max (max 0 cc) (List.foldl max 0 rest)
            = List.foldl max 0 rest from by omega]
      · rw [if_neg ha, if_neg ha]

theorem foldl_recordComplex_lookup (obs : List (String × Nat)) :
    ∀ (m : String → Option Nat) (name : String),
      (obs.foldl (fun m oc => recordComplex m oc.1 oc.2) m) name =
        foldRecord (m name) (obsOf obs name) := by
  induction obs with
  | nil => intro m name; simp [obsOf, foldRecord]
  | cons oc rest ih =>
    intro m name
    rw [List.foldl_cons, ih]
    by_cases hn : oc.1 = name
    · have hobs : obsOf (oc :: rest) name = oc.2 :: obsOf rest name := by
        simp [obsOf, List.filter_cons, hn]
      rw [hobs]
      rw [show foldRecord (m name) (oc.2 :: obsOf rest name)
          = foldRecord (if 15 < oc.2 then some (maxOpt oc.2 (m name)) else m name)
              (obsOf rest name) from by simp [foldRecord]]
      congr 1
      unfold recordComplex
      by_cases h15 : 15 < oc.2
      · rw [if_pos h15, if_pos h15]
        subst hn
        simp
      · rw [if_neg h15, if_neg h15]
    · have hobs : obsOf (oc :: rest) name = obsOf rest name := by
        simp [obsOf, List.filter_cons, hn]
      rw [hobs]
      congr 1
      unfold recordComplex
      by_cases h15 : 15 < oc.2
      · rw [if_pos h15]
        have hne : ¬ name = oc.1 := fun h => hn h.symm
        simp [hne]
      · rw [if_neg h15]

/-- Claim C6: the Complex-Function Finder, scanning the full tree of the
first analyzable commit and then only the files changed by each subsequent
commit, maps a fully qualified function name to some value exactly when
some observation of that name during the walk exceeded 15, and the recorded
value is the maximum complexity observed for that name across the whole
walk; no other name is mapped. -/
theorem claim_C6 (ext : Path → Bool) (filtered_files : List String)
    (data : List RawCommit) (name : String) :
    find_complex_functions ext filtered_files data name =
      (if (obsOf (scanObservations ext filtered_files data) name).any
          (fun w => decide (15 < w))
       then some (listMax (obsOf (scanObservations ext filtered_files data) name))
       else none) := by
  unfold find_complex_functions
  rw [foldl_recordComplex_lookup]
  exact foldRecord_none_char _

end GitCommitMining
